import Mathlib

/-!
Shallow embedding of the data-preparation core of `src/app.py` (a Flask EDA
app over a pandas DataFrame).

Modelling conventions:
* A cell of the feature table is `Option ℚ`: `none` is a missing value (NaN),
  `some v` a numeric value.  The feature columns of the dataset are all
  numeric, so the numeric projection `X.select_dtypes(include=[np.number])`
  is the table itself; `cols` is the number of (numeric) columns.
* pandas reductions (`mean`, `std`, `corr`) skip missing values; `std` uses
  the sample convention (ddof = 1).  Float arithmetic is modelled exactly
  over ℚ.  A pandas float expression whose value is NaN (0/0, or anything
  involving NaN) is modelled by the branch structure of the definitions
  below: `z < 3` is False whenever z is NaN, which happens exactly when the
  cell is missing or the sample variance of the column is not positive;
  `remove_outliers` therefore keeps a row iff every column has a present
  cell, positive sample variance and `(v - mean)^2 < 9 * var` (equivalent
  to `|v - mean| / std < 3`, since `std = sqrt var`).
* The division convention `q / 0 = 0` of ℚ in Lean is only ever exercised
  where the corresponding pandas value is NaN, and every such place is
  guarded by an explicit test (`0 < colVar ...`, `ncount ... = 0`) so the
  junk value is never compared against a threshold.
-/

abbrev Cell := Option ℚ

abbrev Row := List Cell

abbrev Table := List Row

/-- Cell `j` of a row; positions past the end of the row read as missing. -/
def cellAt (r : Row) (j : ℕ) : Cell :=
  r.getD j none

/-- Row `i` of a table. -/
def rowAt (t : Table) (i : ℕ) : Row :=
  t.getD i []

/-- The non-missing values of column `j`, in row order (pandas reductions
skip NaN). -/
def colVals (t : Table) (j : ℕ) : List ℚ :=
  t.filterMap (fun r => cellAt r j)

/-- Number of non-missing entries of column `j` (the count pandas
reductions divide by). -/
def ncount (t : Table) (j : ℕ) : ℕ :=
  (colVals t j).length

/-- Column mean over non-missing entries (`X.mean()`).  Junk value 0 when
the column has no non-missing entry (pandas: NaN); all uses are guarded. -/
def colMean (t : Table) (j : ℕ) : ℚ :=
  (colVals t j).sum / (ncount t j : ℚ)

/-- Sum of squared deviations from the column mean. -/
def colVarNum (t : Table) (j : ℕ) : ℚ :=
  ((colVals t j).map (fun v => (v - colMean t j) ^ 2)).sum

/-- Sample variance of column `j` (square of `X.std()`, ddof = 1).  Junk
value 0 when fewer than two entries are present (pandas: NaN); all uses are
guarded by `0 < colVar`. -/
def colVar (t : Table) (j : ℕ) : ℚ :=
  colVarNum t j / ((ncount t j - 1 : ℕ) : ℚ)

/-- Whether one cell survives the z-score test `z_scores < 3` of
`remove_outliers` (line 40 of `app.py`).  A missing cell, or a column whose
sample std is 0 or NaN, makes the pandas z-score NaN, and `NaN < 3` is
False; otherwise `|v - mean| / std < 3  ↔  (v - mean)^2 < 9 * var`. -/
def cellPass (t : Table) (j : ℕ) (c : Cell) : Bool :=
  match c with
  | none => false
  | some v => decide (0 < colVar t j ∧ (v - colMean t j) ^ 2 < 9 * colVar t j)

/-- The test `(z_scores < 3).all(axis=1)` for one row. -/
def rowPass (cols : ℕ) (t : Table) (r : Row) : Bool :=
  (List.range cols).all (fun j => cellPass t j (cellAt r j))

/-- The selection `numeric_X[(z_scores < 3).all(axis=1)]`: the filtered table
computed by `remove_outliers` and `outlier_removal` in `app.py`. -/
def removeOutliersTable (cols : ℕ) (t : Table) : Table :=
  t.filter (rowPass cols t)

/-- The difference `numeric_X.shape[0] - X_no_outliers.shape[0]`, the count
reported by the `outlier_removal` route. -/
def outlierRemovedCount (cols : ℕ) (t : Table) : ℕ :=
  t.length - (removeOutliersTable cols t).length

/-- Worker for `X.drop_duplicates()`: the rows are processed front to back
with the set of rows already seen: a row is dropped iff an equal row
occurred earlier; the first
occurrence is kept. -/
def dropDupGo {α : Type} [DecidableEq α] (seen : List α) : List α → List α
  | [] => []
  | r :: rs =>
    if r ∈ seen then dropDupGo seen rs else r :: dropDupGo (r :: seen) rs

/-- The call `X.drop_duplicates()` (default `keep="first"`). -/
def drop_duplicates {α : Type} [DecidableEq α] (l : List α) : List α :=
  dropDupGo [] l

/-- Per-column fill value used by `X[numerical_cols].fillna(X[numerical_cols].mean())`:
the column mean, or NaN for a column with no non-missing entry.  pandas
leaves cells alone when the fill value itself is NaN. -/
def fillValue (t : Table) (j : ℕ) : Cell :=
  if ncount t j = 0 then none else some (colMean t j)

/-- Fill the missing cells of one row with the per-column fill values. -/
def fillRow (ms : List Cell) (r : Row) : Row :=
  List.zipWith (fun m c => match c with | none => m | some v => some v) ms r

/-- The fill `X[numerical_cols].fillna(X[numerical_cols].mean())` (lines 24, 92
of `app.py`). -/
def fillna (cols : ℕ) (t : Table) : Table :=
  t.map (fillRow ((List.range cols).map (fillValue t)))

/-- Rows of the table where both column `i` and column `j` are present:
`DataFrame.corr()` computes each Pearson coefficient over the pairwise
complete observations of the two columns. -/
def pairRows (t : Table) (i j : ℕ) : List (ℚ × ℚ) :=
  t.filterMap (fun r =>
    match cellAt r i, cellAt r j with
    | some x, some y => some (x, y)
    | _, _ => none)

/-- Mean of the first coordinate over the pairwise complete observations. -/
def pairMeanX (t : Table) (i j : ℕ) : ℚ :=
  ((pairRows t i j).map Prod.fst).sum / ((pairRows t i j).length : ℚ)

/-- Mean of the second coordinate over the pairwise complete observations. -/
def pairMeanY (t : Table) (i j : ℕ) : ℚ :=
  ((pairRows t i j).map Prod.snd).sum / ((pairRows t i j).length : ℚ)

/-- Numerator of the Pearson coefficient of columns `i` and `j`: the sum of
products of deviations.  The normalising counts of covariance and variances
cancel in the coefficient, so the coefficient computed by `.corr()` is
`pairCov / sqrt (pairVarX * pairVarY)`. -/
def pairCov (t : Table) (i j : ℕ) : ℚ :=
  ((pairRows t i j).map
    (fun p => (p.1 - pairMeanX t i j) * (p.2 - pairMeanY t i j))).sum

/-- Sum of squared deviations of column `i` over the pairwise complete
observations with column `j`. -/
def pairVarX (t : Table) (i j : ℕ) : ℚ :=
  ((pairRows t i j).map (fun p => (p.1 - pairMeanX t i j) ^ 2)).sum

/-- Sum of squared deviations of column `j` over the pairwise complete
observations with column `i`. -/
def pairVarY (t : Table) (i j : ℕ) : ℚ :=
  ((pairRows t i j).map (fun p => (p.2 - pairMeanY t i j) ^ 2)).sum

/-- The process-wide dataset state of `app.py`: the feature table `X`, its
fixed column count (the numeric column set is computed once at load), the
read-only target series `y`, and the derived table `X_no_outliers`
(initially `None` in the source, hence an `Option`). -/
structure DState where
  cols : ℕ
  X : Table
  y : List String
  X_no_outliers : Option Table
  deriving DecidableEq

/-- Function `remove_outliers()` (lines 34 to 40 of `app.py`): recompute
`X_no_outliers` from the current `X`, overwriting it wholesale. -/
def remove_outliers (s : DState) : DState :=
  { s with X_no_outliers := some (removeOutliersTable s.cols s.X) }

/-- Hook `before_request()` (lines 74 to 76): every request first reruns
`remove_outliers`. -/
def before_request (s : DState) : DState :=
  remove_outliers s

/-- The `/handle_missing_values` route (lines 90 to 93): fill missing
values in place and return a fixed confirmation page. -/
def handle_missing_values (s : DState) : DState × String :=
  ({ s with X := fillna s.cols s.X },
    "<html><body><p>Missing values handled</p></body></html>")

/-- The `/remove_duplicates` route (lines 96 to 103): the number of
duplicated rows is computed into a local that is never used, `X` is
replaced by `X.drop_duplicates()`, and the returned page is a fixed
confirmation that does not mention the count. -/
def remove_duplicates (s : DState) : DState × String :=
  let original_duplicates_count := s.X.length - (drop_duplicates s.X).length
  ({ s with X := drop_duplicates s.X },
    "<html><body><p>Duplicates removed</p></body></html>")

/-- The `/outlier_removal` route (lines 151 to 161): recompute
`X_no_outliers` and report the number of removed rows. -/
def outlier_removal (s : DState) : DState × String :=
  ({ s with X_no_outliers := some (removeOutliersTable s.cols s.X) },
    "<html><body><p>Number of outliers removed: "
      ++ toString (outlierRemovedCount s.cols s.X) ++ "</p></body></html>")

/-- The `/correlation_matrix` route (lines 140 to 148): a pure read of the
current table.  Each matrix entry is returned in exact form as the triple
`(pairCov, pairVarX, pairVarY)`; the float Pearson coefficient rendered by
the source is `pairCov / sqrt (pairVarX * pairVarY)`. -/
def correlation_matrix (s : DState) : DState × List (List (ℚ × ℚ × ℚ)) :=
  (s, (List.range s.cols).map (fun i => (List.range s.cols).map (fun j =>
    (pairCov s.X i j, pairVarX s.X i j, pairVarY s.X i j))))

/-- Modelled from the spec, for comparison with the code: the square of the
absolute z-score of one cell, under the policy stated by the spec that a
column with zero standard deviation has z = 0 for every row (and 0 for a
missing cell, where the spec assigns no z).  The spec condition
`abs z < 3` is `specAbsZsq < 9`. -/
def specAbsZsq (t : Table) (r : Row) (j : ℕ) : ℚ :=
  match cellAt r j with
  | none => 0
  | some v =>
    if colVar t j = 0 then 0 else (v - colMean t j) ^ 2 / colVar t j

/-- Modelled from the spec, for comparison with the code: remove rows that
are exact duplicates of an earlier row, keeping the first occurrence and
preserving the order of survivors — rendered as a single left-to-right
pass that appends each row not already in the output. -/
def specKeepFirst {α : Type} [DecidableEq α] (l : List α) : List α :=
  l.foldl (fun acc r => if r ∈ acc then acc else acc ++ [r]) []

/-! ### Lemmas about `drop_duplicates` -/

lemma mem_dropDupGo {α : Type} [DecidableEq α] (seen l : List α) (x : α) :
    x ∈ dropDupGo seen l ↔ x ∈ l ∧ x ∉ seen := by
  induction l generalizing seen with
  | nil => simp [dropDupGo]
  | cons r rs ih =>
    by_cases hr : r ∈ seen
    · simp only [dropDupGo, if_pos hr, ih, List.mem_cons]
      constructor
      · rintro ⟨h1, h2⟩
        exact ⟨Or.inr h1, h2⟩
      · rintro ⟨h1 | h1, h2⟩
        · exact absurd (h1 ▸ hr) h2
        · exact ⟨h1, h2⟩
    · simp only [dropDupGo, if_neg hr, List.mem_cons, ih]
      constructor
      · rintro (rfl | ⟨h1, h2⟩)
        · exact ⟨Or.inl rfl, hr⟩
        · rw [not_or] at h2
          exact ⟨Or.inr h1, h2.2⟩
      · rintro ⟨h1 | h1, h2⟩
        · exact Or.inl h1
        · by_cases hxr : x = r
          · exact Or.inl hxr
          · exact Or.inr ⟨h1, by rw [not_or]; exact ⟨hxr, h2⟩⟩

lemma dropDupGo_sublist {α : Type} [DecidableEq α] (seen l : List α) :
    (dropDupGo seen l).Sublist l := by
  induction l generalizing seen with
  | nil => simp [dropDupGo]
  | cons r rs ih =>
    by_cases hr : r ∈ seen
    · rw [dropDupGo, if_pos hr]
      exact (ih seen).cons r
    · rw [dropDupGo, if_neg hr]
      exact (ih (r :: seen)).cons₂ r

lemma nodup_dropDupGo {α : Type} [DecidableEq α] (seen l : List α) :
    (dropDupGo seen l).Nodup := by
  induction l generalizing seen with
  | nil => simp [dropDupGo]
  | cons r rs ih =>
    by_cases hr : r ∈ seen
    · rw [dropDupGo, if_pos hr]
      exact ih seen
    · rw [dropDupGo, if_neg hr]
      refine List.nodup_cons.mpr ⟨fun hmem => ?_, ih (r :: seen)⟩
      exact ((mem_dropDupGo (r :: seen) rs r).mp hmem).2 (List.mem_cons_self r seen)

lemma dropDupGo_eq_self {α : Type} [DecidableEq α] (seen l : List α)
    (hd : l.Nodup) (hs : ∀ x ∈ l, x ∉ seen) : dropDupGo seen l = l := by
  induction l generalizing seen with
  | nil => simp [dropDupGo]
  | cons r rs ih =>
    rw [List.nodup_cons] at hd
    rw [dropDupGo, if_neg (hs r (List.mem_cons_self r rs))]
    refine congrArg (r :: ·) (ih (r :: seen) hd.2 fun x hx => ?_)
    rw [List.mem_cons, not_or]
    exact ⟨fun hxr => hd.1 (hxr ▸ hx), hs x (List.mem_cons_of_mem r hx)⟩

lemma dropDupGo_congr {α : Type} [DecidableEq α] (s₁ s₂ l : List α)
    (h : ∀ x, x ∈ s₁ ↔ x ∈ s₂) : dropDupGo s₁ l = dropDupGo s₂ l := by
  induction l generalizing s₁ s₂ with
  | nil => simp [dropDupGo]
  | cons r rs ih =>
    by_cases hr : r ∈ s₁
    · rw [dropDupGo, if_pos hr, dropDupGo, if_pos ((h r).mp hr), ih s₁ s₂ h]
    · rw [dropDupGo, if_neg hr, dropDupGo, if_neg (fun hc => hr ((h r).mpr hc))]
      refine congrArg (r :: ·) (ih (r :: s₁) (r :: s₂) fun x => ?_)
      simp [List.mem_cons, h x]

lemma foldl_keepFirst {α : Type} [DecidableEq α] (l acc : List α) :
    l.foldl (fun acc r => if r ∈ acc then acc else acc ++ [r]) acc =
      acc ++ dropDupGo acc l := by
  induction l generalizing acc with
  | nil => simp [dropDupGo]
  | cons r rs ih =>
    rw [List.foldl_cons]
    by_cases hr : r ∈ acc
    · rw [if_pos hr, ih acc, dropDupGo, if_pos hr]
    · rw [if_neg hr, ih (acc ++ [r]), dropDupGo, if_neg hr,
        dropDupGo_congr (acc ++ [r]) (r :: acc) rs
          (fun x => by simp [List.mem_append, List.mem_cons, or_comm])]
      simp

/-- Agreement of `drop_duplicates` with the left-to-right first-occurrence pass
described by the spec. -/
lemma drop_duplicates_eq_specKeepFirst {α : Type} [DecidableEq α]
    (l : List α) : drop_duplicates l = specKeepFirst l := by
  rw [specKeepFirst, foldl_keepFirst l [], List.nil_append, drop_duplicates]

lemma drop_duplicates_idem {α : Type} [DecidableEq α] (l : List α) :
    drop_duplicates (drop_duplicates l) = drop_duplicates l :=
  dropDupGo_eq_self [] (drop_duplicates l) (nodup_dropDupGo [] l)
    (fun x _ => List.not_mem_nil x)

/-! ### Lemmas about `fillna` -/

lemma fillRow_cellAt (ms : List Cell) (r : Row) (j : ℕ)
    (hm : j < ms.length) (hr : j < r.length) :
    cellAt (fillRow ms r) j =
      match cellAt r j with
      | none => cellAt ms j
      | some v => some v := by
  induction ms generalizing r j with
  | nil => simp at hm
  | cons m ms ih =>
    cases r with
    | nil => simp at hr
    | cons c r =>
      cases j with
      | zero => cases c <;> simp [fillRow, cellAt]
      | succ j =>
        simp only [List.length_cons, Nat.succ_lt_succ_iff] at hm hr
        simpa [fillRow, cellAt, List.zipWith_cons_cons, List.getD_cons_succ]
          using ih r j hm hr

lemma rowAt_fillna (cols : ℕ) (t : Table) (i : ℕ) (hi : i < t.length) :
    rowAt (fillna cols t) i =
      fillRow ((List.range cols).map (fillValue t)) (rowAt t i) := by
  unfold fillna rowAt
  rw [List.getD_eq_getElem?_getD, List.getElem?_map,
    List.getElem?_eq_getElem hi, List.getD_eq_getElem?_getD,
    List.getElem?_eq_getElem hi]
  rfl

lemma cellAt_fillValues (t : Table) (cols j : ℕ) (hj : j < cols) :
    cellAt ((List.range cols).map (fillValue t)) j = fillValue t j := by
  unfold cellAt
  rw [List.getD_eq_getElem?_getD, List.getElem?_map, List.getElem?_range hj]
  rfl

lemma cellAt_eq_none_of_ncount_zero (t : Table) (j : ℕ) (h : ncount t j = 0)
    (r : Row) (hr : r ∈ t) : cellAt r j = none := by
  unfold ncount colVals at h
  rw [List.length_eq_zero] at h
  exact List.filterMap_eq_nil_iff.mp h r hr

lemma exists_of_mem_zipWith {α β γ : Type} {f : α → β → γ} {as : List α}
    {bs : List β} {c : γ} (h : c ∈ List.zipWith f as bs) :
    ∃ a b, a ∈ as ∧ b ∈ bs ∧ c = f a b := by
  induction as generalizing bs with
  | nil => simp at h
  | cons a as ih =>
    cases bs with
    | nil => simp at h
    | cons b bs =>
      rw [List.zipWith_cons_cons, List.mem_cons] at h
      rcases h with rfl | h
      · exact ⟨a, b, List.mem_cons_self a as, List.mem_cons_self b bs, rfl⟩
      · obtain ⟨x, y, hx, hy, rfl⟩ := ih h
        exact ⟨x, y, List.mem_cons_of_mem a hx, List.mem_cons_of_mem b hy, rfl⟩

lemma fillRow_eq_self (ms : List Cell) (r : Row)
    (h : ∀ c ∈ r, c.isSome = true) (hlen : r.length ≤ ms.length) :
    fillRow ms r = r := by
  induction ms generalizing r with
  | nil =>
    cases r with
    | nil => rfl
    | cons c r => simp at hlen
  | cons m ms ih =>
    cases r with
    | nil => rfl
    | cons c r =>
      have hc := h c (List.mem_cons_self c r)
      cases c with
      | none => simp at hc
      | some v =>
        simp only [List.length_cons, Nat.succ_le_succ_iff] at hlen
        rw [fillRow, List.zipWith_cons_cons]
        exact congrArg (some v :: ·)
          (ih r (fun x hx => h x (List.mem_cons_of_mem _ hx)) hlen)

lemma fillna_no_missing (cols : ℕ) (t : Table)
    (hnz : ∀ j < cols, 0 < ncount t j) :
    ∀ r ∈ fillna cols t, ∀ c ∈ r, c.isSome = true := by
  intro r hr c hc
  obtain ⟨r₀, hr₀, rfl⟩ := List.mem_map.mp hr
  obtain ⟨m, c₀, hm, hc₀, rfl⟩ := exists_of_mem_zipWith hc
  cases c₀ with
  | some v => rfl
  | none =>
    obtain ⟨j, hj, rfl⟩ := List.mem_map.mp hm
    rw [List.mem_range] at hj
    have hpos : ncount t j ≠ 0 := by have := hnz j hj; omega
    simp [fillValue, hpos]

/-! ### Lemmas about `remove_outliers` -/

lemma cellPass_eq_false_of_var_eq_zero (t : Table) (j : ℕ)
    (hv : colVar t j = 0) (c : Cell) : cellPass t j c = false := by
  cases c with
  | none => rfl
  | some v => simp [cellPass, hv]

lemma rowPass_eq_false_of_var_eq_zero (cols : ℕ) (t : Table) (j : ℕ)
    (hj : j < cols) (hv : colVar t j = 0) (r : Row) :
    rowPass cols t r = false := by
  rw [Bool.eq_false_iff]
  intro hall
  rw [rowPass, List.all_eq_true] at hall
  have := hall j (List.mem_range.mpr hj)
  rw [cellPass_eq_false_of_var_eq_zero t j hv] at this
  exact Bool.false_ne_true this

/-- Bridge between the squared comparison performed over ℚ and the z-score
comparison over ℝ: for a positive variance q, `a ^ 2 < 9 * q` is exactly
`abs a < 3 * sqrt q`. -/
lemma sq_lt_iff_abs_lt_sqrt (a q : ℚ) :
    a ^ 2 < 9 * q ↔ |(a : ℝ)| < 3 * Real.sqrt (q : ℝ) := by
  have h3 : (3 : ℝ) * Real.sqrt (q : ℝ) = Real.sqrt (9 * (q : ℝ)) := by
    rw [show (9 : ℝ) * (q : ℝ) = 3 ^ 2 * (q : ℝ) by norm_num,
      Real.sqrt_mul (by positivity) ((q : ℚ) : ℝ), Real.sqrt_sq (by norm_num)]
  rw [h3, Real.lt_sqrt (abs_nonneg _), sq_abs]
  constructor
  · intro h
    exact_mod_cast h
  · intro h
    exact_mod_cast h

/-- C1 (amended): `remove_outliers` never divides by zero and never crashes
on a zero-variance column, but the pandas z-scores of such a column are NaN
rather than 0, and `NaN < 3` is False, so a zero-variance numeric column
causes every row to be excluded from the outlier-filtered table. -/
theorem remove_outliers_zero_variance_drops_all (cols : ℕ) (t : Table)
    (j : ℕ) (hj : j < cols) (hv : colVar t j = 0) :
    removeOutliersTable cols t = [] ∧
    outlierRemovedCount cols t = t.length := by
  have he : removeOutliersTable cols t = [] := by
    refine List.filter_eq_nil_iff.mpr fun r hr => ?_
    rw [rowPass_eq_false_of_var_eq_zero cols t j hj hv r]
    exact Bool.false_ne_true
  refine ⟨he, ?_⟩
  rw [outlierRemovedCount, he]
  rfl

/-- C1 witness: the zero-variance theorem applied to the table whose only
numeric column is the constant [5,5,5,5]. -/
theorem remove_outliers_zero_variance_drops_all_witness :
    (0 < 1 ∧ colVar [[some 5], [some 5], [some 5], [some 5]] 0 = 0) ∧
    removeOutliersTable 1 [[some 5], [some 5], [some 5], [some 5]] = [] ∧
    outlierRemovedCount 1 [[some 5], [some 5], [some 5], [some 5]] = 4 := by
  have hv : colVar [[some 5], [some 5], [some 5], [some 5]] 0 = 0 := by
    norm_num [colVar, colVarNum, colMean, colVals, ncount, cellAt,
      List.filterMap_cons]
  have h := remove_outliers_zero_variance_drops_all 1
    [[some 5], [some 5], [some 5], [some 5]] 0 (by norm_num) hv
  exact ⟨⟨by norm_num, hv⟩, h.1, by rw [h.2]; rfl⟩

/-- C1 counterexample: on the table whose only numeric column is the
constant [5,5,5,5], the code retains 0 of the 4 rows, not all 4 as the
claim states. -/
theorem remove_outliers_constant_column_cex :
    removeOutliersTable 1 [[some 5], [some 5], [some 5], [some 5]] = [] ∧
    (removeOutliersTable 1 [[some 5], [some 5], [some 5], [some 5]]).length
      ≠ 4 := by
  have hv : colVar [[some 5], [some 5], [some 5], [some 5]] 0 = 0 := by
    norm_num [colVar, colVarNum, colMean, colVals, ncount, cellAt,
      List.filterMap_cons]
  have he : removeOutliersTable 1 [[some 5], [some 5], [some 5], [some 5]]
      = [] := by
    simp [removeOutliersTable, List.filter, rowPass, List.range_succ,
      cellPass, cellAt, hv]
  rw [he]
  simp

/-- C2 (amended): a row of the feature table is retained by
`remove_outliers` iff for every numeric column the cell is present, the
sample variance of the column is positive, and the absolute z-score of the
value is strictly below 3; equivalently, an excluded row has some column
whose cell is missing, whose variance is zero or undefined, or whose
absolute z-score is at least 3. -/
theorem removeOutliersTable_mem_iff (cols : ℕ) (t : Table) (r : Row)
    (hr : r ∈ t) :
    r ∈ removeOutliersTable cols t ↔
      ∀ j < cols, ∃ v : ℚ, cellAt r j = some v ∧ 0 < colVar t j ∧
        |(v : ℝ) - (colMean t j : ℝ)| < 3 * Real.sqrt (colVar t j : ℝ) := by
  rw [removeOutliersTable, List.mem_filter, and_iff_right hr, rowPass,
    List.all_eq_true]
  constructor
  · intro h j hj
    have hpass := h j (List.mem_range.mpr hj)
    cases hc : cellAt r j with
    | none => rw [hc] at hpass; simp [cellPass] at hpass
    | some v =>
      rw [hc] at hpass
      simp only [cellPass, decide_eq_true_eq] at hpass
      refine ⟨v, rfl, hpass.1, ?_⟩
      have habs := (sq_lt_iff_abs_lt_sqrt (v - colMean t j)
        (colVar t j)).mp hpass.2
      push_cast at habs
      exact habs
  · intro h j hjm
    rw [List.mem_range] at hjm
    obtain ⟨v, hc, hv, habs⟩ := h j hjm
    rw [hc]
    simp only [cellPass, decide_eq_true_eq]
    refine ⟨hv, ?_⟩
    apply (sq_lt_iff_abs_lt_sqrt (v - colMean t j) (colVar t j)).mpr
    push_cast
    exact habs

/-- C2 witness: the membership characterisation applied to the middle row
of a small three-row table. -/
theorem removeOutliersTable_mem_iff_witness :
    ([some 1] : Row) ∈ ([[some 0], [some 1], [some 2]] : Table) ∧
    (([some 1] : Row) ∈ removeOutliersTable 1 [[some 0], [some 1], [some 2]]
      ↔ ∀ j < 1, ∃ v : ℚ, cellAt [some 1] j = some v ∧
        0 < colVar [[some 0], [some 1], [some 2]] j ∧
        |(v : ℝ) - (colMean [[some 0], [some 1], [some 2]] j : ℝ)| <
          3 * Real.sqrt (colVar [[some 0], [some 1], [some 2]] j : ℝ)) :=
  ⟨by simp, removeOutliersTable_mem_iff 1 [[some 0], [some 1], [some 2]]
    [some 1] (by simp)⟩

/-- C2 counterexample: on the constant table [[7],[7],[7]] every row is
excluded by the code although, with the z-score policy stated by the spec
(z = 0 on a zero-variance column), every column of the first row has
absolute z-score below 3 — so "retained iff all abs z below 3" fails. -/
theorem removeOutliers_spec_policy_cex :
    removeOutliersTable 1 [[some 7], [some 7], [some 7]] = [] ∧
    specAbsZsq [[some 7], [some 7], [some 7]] [some 7] 0 < 9 := by
  have hv : colVar [[some 7], [some 7], [some 7]] 0 = 0 := by
    norm_num [colVar, colVarNum, colMean, colVals, ncount, cellAt,
      List.filterMap_cons]
  constructor
  · simp [removeOutliersTable, List.filter, rowPass, List.range_succ,
      cellPass, cellAt, hv]
  · norm_num [specAbsZsq, cellAt, hv]

/-- Concrete evaluation shared by the C3 theorems: deduplication of the
scenario table keeps 3 rows, and the z-score filter on the result excludes
nothing (with 3 samples and sample std, no value can reach abs z of 3). -/
lemma dedupOutlierScenario_eval :
    drop_duplicates ([[some 1, some 10], [some 2, some 20], [some 2, some 20],
        [some 1000, some 20]] : Table) =
      [[some 1, some 10], [some 2, some 20], [some 1000, some 20]] ∧
    removeOutliersTable 2
        [[some 1, some 10], [some 2, some 20], [some 1000, some 20]] =
      [[some 1, some 10], [some 2, some 20], [some 1000, some 20]] := by
  constructor
  · norm_num [drop_duplicates, dropDupGo]
  · have h0 : colVar [[some 1, some 10], [some 2, some 20],
        [some 1000, some 20]] 0 = 997003 / 3 := by
      norm_num [colVar, colVarNum, colMean, colVals, ncount, cellAt,
        List.filterMap_cons]
    have h0m : colMean [[some 1, some 10], [some 2, some 20],
        [some 1000, some 20]] 0 = 1003 / 3 := by
      norm_num [colMean, colVals, ncount, cellAt, List.filterMap_cons]
    have h1 : colVar [[some 1, some 10], [some 2, some 20],
        [some 1000, some 20]] 1 = 100 / 3 := by
      norm_num [colVar, colVarNum, colMean, colVals, ncount, cellAt,
        List.filterMap_cons]
    have h1m : colMean [[some 1, some 10], [some 2, some 20],
        [some 1000, some 20]] 1 = 50 / 3 := by
      norm_num [colMean, colVals, ncount, cellAt, List.filterMap_cons]
    simp [removeOutliersTable, List.filter, rowPass, List.range_succ,
      cellPass, cellAt, h0, h0m, h1, h1m]
    norm_num

/-- C3 (amended): on the scenario table, `drop_duplicates` leaves 3 rows as
the claim states, but the subsequent outlier recomputation excludes no row
(with only 3 samples and the sample std convention every abs z is below 3),
so the outlier-filtered table keeps all 3 rows, including the row
[1000, 20], and the reported removed-count is 0. -/
theorem dedup_outlier_scenario :
    drop_duplicates ([[some 1, some 10], [some 2, some 20], [some 2, some 20],
        [some 1000, some 20]] : Table) =
      [[some 1, some 10], [some 2, some 20], [some 1000, some 20]] ∧
    removeOutliersTable 2
        [[some 1, some 10], [some 2, some 20], [some 1000, some 20]] =
      [[some 1, some 10], [some 2, some 20], [some 1000, some 20]] ∧
    outlierRemovedCount 2
      [[some 1, some 10], [some 2, some 20], [some 1000, some 20]] = 0 ∧
    (outlier_removal ⟨2, [[some 1, some 10], [some 2, some 20],
        [some 1000, some 20]], [], none⟩).2 =
      "<html><body><p>Number of outliers removed: 0</p></body></html>" := by
  obtain ⟨hd, hrm⟩ := dedupOutlierScenario_eval
  have hc : outlierRemovedCount 2
      [[some 1, some 10], [some 2, some 20], [some 1000, some 20]] = 0 := by
    rw [outlierRemovedCount, hrm]
    exact Nat.sub_self _
  refine ⟨hd, hrm, hc, ?_⟩
  calc (outlier_removal ⟨2, [[some 1, some 10], [some 2, some 20],
          [some 1000, some 20]], [], none⟩).2
      = "<html><body><p>Number of outliers removed: "
          ++ toString (outlierRemovedCount 2 [[some 1, some 10],
            [some 2, some 20], [some 1000, some 20]])
          ++ "</p></body></html>" := rfl
    _ = "<html><body><p>Number of outliers removed: 0</p></body></html>" := by
        rw [hc]
        rfl

/-- C3 counterexample: after deduplication the outlier filter leaves 3 rows
(not 2), the row [1000, 20] is retained (not excluded), and the reported
removed-count is 0 (not 1). -/
theorem dedup_outlier_scenario_cex :
    (removeOutliersTable 2 (drop_duplicates ([[some 1, some 10],
        [some 2, some 20], [some 2, some 20], [some 1000, some 20]] :
        Table))).length ≠ 2 ∧
    ([some 1000, some 20] : Row) ∈ removeOutliersTable 2
      (drop_duplicates ([[some 1, some 10], [some 2, some 20],
        [some 2, some 20], [some 1000, some 20]] : Table)) ∧
    outlierRemovedCount 2 (drop_duplicates ([[some 1, some 10],
      [some 2, some 20], [some 2, some 20], [some 1000, some 20]] :
      Table)) ≠ 1 := by
  obtain ⟨hd, hrm⟩ := dedupOutlierScenario_eval
  simp only [hd, outlierRemovedCount, hrm]
  refine ⟨?_, ?_, ?_⟩
  · simp
  · simp
  · simp

lemma rowAt_mem (t : Table) (i : ℕ) (hi : i < t.length) : rowAt t i ∈ t := by
  unfold rowAt
  rw [List.getD_eq_getElem?_getD, List.getElem?_eq_getElem hi]
  exact List.getElem_mem hi

lemma length_fillRow (ms : List Cell) (r : Row) :
    (fillRow ms r).length = min ms.length r.length := by
  simp [fillRow, List.length_zipWith]

lemma fillna_idem (cols : ℕ) (t : Table)
    (hlen : ∀ r ∈ t, r.length = cols)
    (hnz : ∀ j < cols, 0 < ncount t j) :
    fillna cols (fillna cols t) = fillna cols t := by
  have hsome := fillna_no_missing cols t hnz
  have hrows : ∀ r ∈ fillna cols t,
      fillRow ((List.range cols).map (fillValue (fillna cols t))) r = r := by
    intro r hr
    refine fillRow_eq_self _ r (hsome r hr) ?_
    obtain ⟨r₀, hr₀, rfl⟩ := List.mem_map.mp hr
    rw [length_fillRow]
    simp [hlen r₀ hr₀]
  calc fillna cols (fillna cols t)
      = (fillna cols t).map
          (fillRow ((List.range cols).map (fillValue (fillna cols t)))) := rfl
    _ = (fillna cols t).map id := List.map_congr_left hrows
    _ = fillna cols t := List.map_id _

/-- C6: when every numeric column has at least one non-missing value,
`fillna` leaves no missing entries, replaces each previously missing cell
by the mean (over non-missing entries) of its column at call time, and a
second call changes nothing. -/
theorem fillna_fills_with_mean (cols : ℕ) (t : Table)
    (hlen : ∀ r ∈ t, r.length = cols)
    (hnz : ∀ j < cols, 0 < ncount t j) :
    (∀ r ∈ fillna cols t, ∀ c ∈ r, c.isSome = true) ∧
    (∀ i j, i < t.length → j < cols →
      cellAt (rowAt (fillna cols t) i) j =
        some ((cellAt (rowAt t i) j).getD (colMean t j))) ∧
    fillna cols (fillna cols t) = fillna cols t := by
  refine ⟨fillna_no_missing cols t hnz, fun i j hi hj => ?_,
    fillna_idem cols t hlen hnz⟩
  rw [rowAt_fillna cols t i hi,
    fillRow_cellAt _ _ j (by simp [hj])
      (by rw [hlen (rowAt t i) (rowAt_mem t i hi)]; exact hj),
    cellAt_fillValues t cols j hj]
  cases hc : cellAt (rowAt t i) j with
  | none =>
    have hne : ncount t j ≠ 0 := by have := hnz j hj; omega
    simp [fillValue, hne]
  | some v => rfl

/-- C6 witness: the theorem applied to the one-column table [1, NaN, 3];
the missing entry becomes 2, the mean of 1 and 3. -/
theorem fillna_fills_with_mean_witness :
    ((∀ r ∈ ([[some 1], [none], [some 3]] : Table), r.length = 1) ∧
      (∀ j < 1, 0 < ncount [[some 1], [none], [some 3]] j)) ∧
    ((∀ r ∈ fillna 1 [[some 1], [none], [some 3]], ∀ c ∈ r,
        c.isSome = true) ∧
      (∀ i j, i < ([[some 1], [none], [some 3]] : Table).length → j < 1 →
        cellAt (rowAt (fillna 1 [[some 1], [none], [some 3]]) i) j =
          some ((cellAt (rowAt [[some 1], [none], [some 3]] i) j).getD
            (colMean [[some 1], [none], [some 3]] j))) ∧
      fillna 1 (fillna 1 [[some 1], [none], [some 3]]) =
        fillna 1 [[some 1], [none], [some 3]]) :=
  ⟨⟨by decide, by decide⟩,
    fillna_fills_with_mean 1 [[some 1], [none], [some 3]]
      (by decide) (by decide)⟩

/-- C9: a numeric column with zero non-missing values does not make
`fillna` crash; the fill is a no-op on that column and its cells stay
missing. -/
theorem fillna_empty_column_noop (cols : ℕ) (t : Table) (j : ℕ)
    (hlen : ∀ r ∈ t, r.length = cols) (hj : j < cols)
    (h0 : ncount t j = 0) :
    ∀ i < t.length,
      cellAt (rowAt (fillna cols t) i) j = cellAt (rowAt t i) j ∧
      cellAt (rowAt t i) j = none := by
  intro i hi
  have hnone : cellAt (rowAt t i) j = none :=
    cellAt_eq_none_of_ncount_zero t j h0 (rowAt t i) (rowAt_mem t i hi)
  refine ⟨?_, hnone⟩
  rw [rowAt_fillna cols t i hi,
    fillRow_cellAt _ _ j (by simp [hj])
      (by rw [hlen (rowAt t i) (rowAt_mem t i hi)]; exact hj),
    cellAt_fillValues t cols j hj, hnone]
  simp [fillValue, h0]

/-- C9 witness: the theorem applied to a table whose single column is
entirely missing. -/
theorem fillna_empty_column_noop_witness :
    ((∀ r ∈ ([[none], [none]] : Table), r.length = 1) ∧ 0 < 1 ∧
      ncount [[none], [none]] 0 = 0) ∧
    (∀ i < ([[none], [none]] : Table).length,
      cellAt (rowAt (fillna 1 [[none], [none]]) i) 0 =
        cellAt (rowAt [[none], [none]] i) 0 ∧
      cellAt (rowAt ([[none], [none]] : Table) i) 0 = none) :=
  ⟨⟨by decide, by decide, by decide⟩,
    fillna_empty_column_noop 1 [[none], [none]] 0
      (by decide) (by decide) (by decide)⟩

/-- C4 (amended): the `remove_duplicates` route removes the duplicate rows
from the feature table but returns only a fixed confirmation page; the
count of removed rows, although computed into a local variable, is not part
of the observable result. -/
theorem remove_duplicates_fixed_message (s : DState) :
    (remove_duplicates s).1.X = drop_duplicates s.X ∧
    (remove_duplicates s).2 =
      "<html><body><p>Duplicates removed</p></body></html>" :=
  ⟨rfl, rfl⟩

/-- C4 counterexample: two states whose dedup operations remove different
numbers of rows (0 and 1) produce identical observable responses, so the
response cannot be reporting the removed count. -/
theorem remove_duplicates_count_not_reported_cex :
    (remove_duplicates ⟨1, [[some 1]], [], none⟩).2 =
      (remove_duplicates ⟨1, [[some 1], [some 1]], [], none⟩).2 ∧
    ([[some 1]] : Table).length -
      (drop_duplicates ([[some 1]] : Table)).length = 0 ∧
    ([[some 1], [some 1]] : Table).length -
      (drop_duplicates ([[some 1], [some 1]] : Table)).length = 1 := by
  refine ⟨rfl, ?_, ?_⟩
  · norm_num [drop_duplicates, dropDupGo]
  · norm_num [drop_duplicates, dropDupGo]

/-- C5: `drop_duplicates` performs the first-occurrence pass of the spec:
survivors keep their relative order and are a subset of the original rows,
no two remaining rows are identical, the row count does not grow, and a
second call removes nothing. -/
theorem drop_duplicates_correct (t : Table) :
    drop_duplicates t = specKeepFirst t ∧
    (drop_duplicates t).Nodup ∧
    (drop_duplicates t).Sublist t ∧
    (drop_duplicates t).length ≤ t.length ∧
    drop_duplicates (drop_duplicates t) = drop_duplicates t :=
  ⟨drop_duplicates_eq_specKeepFirst t, nodup_dropDupGo [] t,
    dropDupGo_sublist [] t, (dropDupGo_sublist [] t).length_le,
    drop_duplicates_idem t⟩

/-- C7: `remove_outliers` is idempotent — it reads only the feature table,
which it does not modify, and overwrites `X_no_outliers` wholesale with a
value determined by the feature table alone. -/
theorem remove_outliers_idempotent (s : DState) :
    remove_outliers (remove_outliers s) = remove_outliers s ∧
    (remove_outliers s).X_no_outliers =
      some (removeOutliersTable s.cols s.X) :=
  ⟨rfl, rfl⟩

/-- C10: `remove_outliers` (run by `before_request` ahead of every route)
only overwrites `X_no_outliers`; the feature table, the target series and
the column count are untouched. -/
theorem remove_outliers_frame (s : DState) :
    (remove_outliers s).cols = s.cols ∧
    (remove_outliers s).X = s.X ∧
    (remove_outliers s).y = s.y ∧
    (remove_outliers s).X_no_outliers =
      some (removeOutliersTable s.cols s.X) ∧
    before_request s = remove_outliers s :=
  ⟨rfl, rfl, rfl, rfl, rfl⟩

/-! ### Lemmas about `correlation_matrix` -/

lemma pairRows_swap (t : Table) (i j : ℕ) :
    pairRows t j i = (pairRows t i j).map Prod.swap := by
  simp only [pairRows, List.map_filterMap]
  congr 1
  funext r
  cases cellAt r i <;> cases cellAt r j <;> rfl

lemma pairMeanX_swap (t : Table) (i j : ℕ) :
    pairMeanX t j i = pairMeanY t i j := by
  simp only [pairMeanX, pairMeanY]
  rw [pairRows_swap t i j, List.map_map, List.length_map,
    show (Prod.fst ∘ Prod.swap : ℚ × ℚ → ℚ) = Prod.snd from
      funext fun p => rfl]

lemma pairMeanY_swap (t : Table) (i j : ℕ) :
    pairMeanY t j i = pairMeanX t i j := by
  simp only [pairMeanX, pairMeanY]
  rw [pairRows_swap t i j, List.map_map, List.length_map,
    show (Prod.snd ∘ Prod.swap : ℚ × ℚ → ℚ) = Prod.fst from
      funext fun p => rfl]

lemma pairCov_swap (t : Table) (i j : ℕ) :
    pairCov t j i = pairCov t i j := by
  simp only [pairCov]
  rw [pairRows_swap t i j, List.map_map, pairMeanX_swap t i j,
    pairMeanY_swap t i j]
  congr 1
  refine List.map_congr_left fun p hp => ?_
  simp only [Function.comp_apply, Prod.fst_swap, Prod.snd_swap]
  ring

lemma pairVarX_swap (t : Table) (i j : ℕ) :
    pairVarX t j i = pairVarY t i j := by
  simp only [pairVarX, pairVarY]
  rw [pairRows_swap t i j, List.map_map, pairMeanX_swap t i j]
  congr 1

lemma pairVarY_swap (t : Table) (i j : ℕ) :
    pairVarY t j i = pairVarX t i j := by
  simp only [pairVarX, pairVarY]
  rw [pairRows_swap t i j, List.map_map, pairMeanY_swap t i j]
  congr 1

lemma pairRows_diag (t : Table) (i : ℕ) :
    pairRows t i i = (colVals t i).map (fun x => (x, x)) := by
  simp only [pairRows, colVals, List.map_filterMap]
  congr 1
  funext r
  cases cellAt r i <;> rfl

lemma pairMeanY_diag (t : Table) (i : ℕ) :
    pairMeanY t i i = pairMeanX t i i := by
  simp only [pairMeanX, pairMeanY, pairRows_diag, List.map_map,
    List.length_map]
  congr 2

lemma pairCov_diag (t : Table) (i : ℕ) :
    pairCov t i i = pairVarX t i i := by
  simp only [pairCov, pairVarX, pairMeanY_diag, pairRows_diag, List.map_map]
  congr 1
  refine List.map_congr_left fun x hx => ?_
  simp only [Function.comp_apply]
  ring

lemma pairVarY_diag (t : Table) (i : ℕ) :
    pairVarY t i i = pairVarX t i i := by
  simp only [pairVarX, pairVarY, pairMeanY_diag, pairRows_diag, List.map_map]
  congr 1

/-- C8: the Pearson matrix computed by the correlation routes is symmetric,
its diagonal entry at any column with positive variance is 1, and the route
is a pure read that leaves the dataset state unchanged.  An entry (i, j) of
the matrix is `pairCov / sqrt (pairVarX * pairVarY)`. -/
theorem correlation_matrix_props (t : Table) (i j : ℕ) :
    (pairCov t i j : ℝ) /
        Real.sqrt ((pairVarX t i j : ℝ) * (pairVarY t i j : ℝ)) =
      (pairCov t j i : ℝ) /
        Real.sqrt ((pairVarX t j i : ℝ) * (pairVarY t j i : ℝ)) ∧
    (0 < pairVarX t i i →
      (pairCov t i i : ℝ) /
        Real.sqrt ((pairVarX t i i : ℝ) * (pairVarY t i i : ℝ)) = 1) ∧
    (∀ s : DState, (correlation_matrix s).1 = s) := by
  refine ⟨?_, ?_, fun s => rfl⟩
  · rw [pairCov_swap t i j, pairVarX_swap t i j, pairVarY_swap t i j,
      mul_comm ((pairVarX t i j : ℝ)) ((pairVarY t i j : ℝ))]
  · intro hv
    rw [pairCov_diag, pairVarY_diag]
    have hv0 : (0 : ℝ) < (pairVarX t i i : ℝ) := by exact_mod_cast hv
    rw [Real.sqrt_mul_self hv0.le]
    exact div_self hv0.ne'

/-- C8 witness: the diagonal entry of the two-row table [0, 1], whose
variance is positive, evaluates to 1. -/
theorem correlation_matrix_props_witness :
    0 < pairVarX [[some 0], [some 1]] 0 0 ∧
    (pairCov [[some 0], [some 1]] 0 0 : ℝ) /
      Real.sqrt ((pairVarX [[some 0], [some 1]] 0 0 : ℝ) *
        (pairVarY [[some 0], [some 1]] 0 0 : ℝ)) = 1 :=
  ⟨by norm_num [pairVarX, pairMeanX, pairRows, cellAt, List.filterMap_cons],
    (correlation_matrix_props [[some 0], [some 1]] 0 0).2.1
      (by norm_num [pairVarX, pairMeanX, pairRows, cellAt,
        List.filterMap_cons])⟩
